import Mathlib

set_option linter.unusedVariables false

namespace LibRets

/-! Shallow embedding of the dispatch/correlation/buffering core of the
jaydata-librets driver.  The definitions below are translated from
`lib/librets/connection/base.js`, `lib/librets/commands/base_command.js`
and the unnamed `db` source file.  Request ids, handler callbacks and
connections are identified by natural-number tokens; JavaScript objects
keyed by request id are modelled as association lists in insertion
order. -/

/-- Endpoint data of a connection, mirroring `connection.socketOptions`
as read by `Base.prototype.__executeAllServerSpecificErrorCallbacks`. -/
structure Conn where
  host : String
  port : Nat
deriving Repr, DecidableEq

/-- Metadata record stored in `CallbackStore._notReplied` by
`Base.prototype._registerHandler`:
`{start: new Date().getTime(), raw: raw, connection: connection, exhaust: exhaust}`. -/
structure HandlerInfo where
  start : Nat
  raw : Bool
  connection : Option Conn
  exhaust : Bool
deriving Repr, DecidableEq

/-- First value stored under a key in an association list, mirroring
JavaScript property lookup `obj[k]`. -/
def findA {α : Type} : List (Nat × α) → Nat → Option α
  | [], _ => none
  | kv :: rest, k => if kv.1 = k then some kv.2 else findA rest k

/-- Remove every entry under a key, mirroring `delete obj[k]` (keys of a
JavaScript object are unique, so on well-formed states this removes at
most one entry). -/
def eraseA {α : Type} : List (Nat × α) → Nat → List (Nat × α)
  | [], _ => []
  | kv :: rest, k => if kv.1 = k then eraseA rest k else kv :: eraseA rest k

/-- Overwrite-or-append under a key, mirroring the assignment
`obj[k] = v`. -/
def setA {α : Type} : List (Nat × α) → Nat → α → List (Nat × α)
  | [], k, v => [(k, v)]
  | kv :: rest, k, v => if kv.1 = k then (k, v) :: rest else kv :: setA rest k v

/-- Append one listener token to the listener list of an event id,
mirroring `EventEmitter.prototype.once` on `CallbackStore`. -/
def pushTokA : List (Nat × List Nat) → Nat → Nat → List (Nat × List Nat)
  | [], k, t => [(k, [t])]
  | kv :: rest, k, t => if kv.1 = k then (k, kv.2 ++ [t]) :: rest else kv :: pushTokA rest k t

/-- Keys of an association list. -/
def keysA {α : Type} (m : List (Nat × α)) : List Nat := m.map Prod.fst

@[simp] theorem findA_nil {α : Type} (k : Nat) : findA ([] : List (Nat × α)) k = none := rfl

theorem findA_cons {α : Type} (kv : Nat × α) (rest : List (Nat × α)) (k : Nat) :
    findA (kv :: rest) k = if kv.1 = k then some kv.2 else findA rest k := rfl

@[simp] theorem eraseA_nil {α : Type} (k : Nat) : eraseA ([] : List (Nat × α)) k = [] := rfl

theorem eraseA_cons {α : Type} (kv : Nat × α) (rest : List (Nat × α)) (k : Nat) :
    eraseA (kv :: rest) k =
      if kv.1 = k then eraseA rest k else kv :: eraseA rest k := rfl

@[simp] theorem findA_eraseA_self {α : Type} (m : List (Nat × α)) (k : Nat) :
    findA (eraseA m k) k = none := by
  induction m with
  | nil => simp
  | cons kv rest ih =>
    by_cases h : kv.1 = k <;> simp [eraseA_cons, findA_cons, h, ih]

theorem findA_eraseA_ne {α : Type} (m : List (Nat × α)) (k k2 : Nat) (h : k2 ≠ k) :
    findA (eraseA m k) k2 = findA m k2 := by
  induction m with
  | nil => simp
  | cons kv rest ih =>
    by_cases hk : kv.1 = k
    · have hne : kv.1 ≠ k2 := by rw [hk]; exact fun hc => h hc.symm
      rw [eraseA_cons, if_pos hk, findA_cons, if_neg hne, ih]
    · rw [eraseA_cons, if_neg hk, findA_cons, findA_cons]
      by_cases hk2 : kv.1 = k2
      · rw [if_pos hk2, if_pos hk2]
      · rw [if_neg hk2, if_neg hk2, ih]

theorem eraseA_of_not_mem {α : Type} (m : List (Nat × α)) (k : Nat)
    (h : k ∉ keysA m) : eraseA m k = m := by
  induction m with
  | nil => simp
  | cons kv rest ih =>
    simp only [keysA, List.map_cons, List.mem_cons] at h
    push_neg at h
    have hk : kv.1 ≠ k := fun hc => h.1 hc.symm
    simp only [eraseA_cons, if_neg hk]
    rw [ih (by simpa [keysA] using h.2)]

theorem keysA_eraseA_sublist {α : Type} (m : List (Nat × α)) (k : Nat) :
    (keysA (eraseA m k)).Sublist (keysA m) := by
  induction m with
  | nil => simp
  | cons kv rest ih =>
    have h2 : keysA (kv :: rest) = kv.1 :: keysA rest := rfl
    by_cases h : kv.1 = k
    · rw [eraseA_cons, if_pos h, h2]
      exact ih.trans (List.sublist_cons_self _ _)
    · have h1 : keysA (kv :: eraseA rest k) = kv.1 :: keysA (eraseA rest k) := rfl
      rw [eraseA_cons, if_neg h, h1, h2]
      exact ih.cons₂ _

theorem keysA_nodup_eraseA {α : Type} (m : List (Nat × α)) (k : Nat)
    (h : (keysA m).Nodup) : (keysA (eraseA m k)).Nodup :=
  h.sublist (keysA_eraseA_sublist m k)

@[simp] theorem findA_setA_self {α : Type} (m : List (Nat × α)) (k : Nat) (v : α) :
    findA (setA m k v) k = some v := by
  induction m with
  | nil => simp [setA, findA_cons]
  | cons kv rest ih =>
    by_cases h : kv.1 = k <;> simp [setA, findA_cons, h, ih]

theorem findA_setA_ne {α : Type} (m : List (Nat × α)) (k k2 : Nat) (v : α) (h : k2 ≠ k) :
    findA (setA m k v) k2 = findA m k2 := by
  induction m with
  | nil =>
    show findA [(k, v)] k2 = none
    rw [findA_cons, if_neg (fun hc => h hc.symm)]
    rfl
  | cons kv rest ih =>
    by_cases hk : kv.1 = k
    · have hne : k ≠ k2 := fun hc => h hc.symm
      have hne2 : kv.1 ≠ k2 := by rw [hk]; exact hne
      show findA (if kv.1 = k then (k, v) :: rest else kv :: setA rest k v) k2 = _
      rw [if_pos hk, findA_cons, if_neg hne, findA_cons, if_neg hne2]
    · show findA (if kv.1 = k then (k, v) :: rest else kv :: setA rest k v) k2 = _
      rw [if_neg hk, findA_cons, findA_cons]
      by_cases hk2 : kv.1 = k2
      · rw [if_pos hk2, if_pos hk2]
      · rw [if_neg hk2, if_neg hk2, ih]

@[simp] theorem findA_pushTokA_self (m : List (Nat × List Nat)) (k t : Nat) :
    findA (pushTokA m k t) k = some ((findA m k).getD [] ++ [t]) := by
  induction m with
  | nil => simp [pushTokA, findA_cons]
  | cons kv rest ih =>
    by_cases h : kv.1 = k <;> simp [pushTokA, findA_cons, h, ih]

theorem findA_pushTokA_ne (m : List (Nat × List Nat)) (k k2 t : Nat) (h : k2 ≠ k) :
    findA (pushTokA m k t) k2 = findA m k2 := by
  induction m with
  | nil =>
    show findA [(k, [t])] k2 = none
    rw [findA_cons, if_neg (fun hc => h hc.symm)]
    rfl
  | cons kv rest ih =>
    by_cases hk : kv.1 = k
    · have hne : k ≠ k2 := fun hc => h hc.symm
      have hne2 : kv.1 ≠ k2 := by rw [hk]; exact hne
      show findA (if kv.1 = k then (k, kv.2 ++ [t]) :: rest else kv :: pushTokA rest k t) k2 = _
      rw [if_pos hk, findA_cons, if_neg hne, findA_cons, if_neg hne2]
    · show findA (if kv.1 = k then (k, kv.2 ++ [t]) :: rest else kv :: pushTokA rest k t) k2 = _
      rw [if_neg hk, findA_cons, findA_cons]
      by_cases hk2 : kv.1 = k2
      · rw [if_pos hk2, if_pos hk2]
      · rw [if_neg hk2, if_neg hk2, ih]

/-- State of a `CallbackStore` (base.js): the per-request-id once-listener
lists (`_events`) and the `_notReplied` metadata map. -/
structure CallbackStore where
  events : List (Nat × List Nat)
  notReplied : List (Nat × HandlerInfo)
deriving Repr, DecidableEq

/-- A freshly constructed `CallbackStore`. -/
def emptyStore : CallbackStore := { events := [], notReplied := [] }

/-- The listeners registered for a request id
(`this._callBackStore.listeners(id)`). -/
def listenersOf (s : CallbackStore) (id : Nat) : List Nat :=
  (findA s.events id).getD []

/-- Embedding of `Base.prototype._registerHandler(db_command, raw,
connection, exhaust, callback)`: a `once` listener is added for the
request id and the metadata record is stored in `_notReplied`. -/
def registerHandler (s : CallbackStore) (requestId : Nat) (now : Nat) (raw : Bool)
    (connection : Option Conn) (exhaust : Bool) (tok : Nat) : CallbackStore :=
  { events := pushTokA s.events requestId tok
  , notReplied := setA s.notReplied requestId
      { start := now, raw := raw, connection := connection, exhaust := exhaust } }

/-- Embedding of a four-argument call of `_registerHandler` (as done by
`__executeInsertCommand`): the callback arrives in the `exhaust` slot, so
the function shifts it and uses `exhaust = false`. -/
def registerHandlerNoExhaust (s : CallbackStore) (requestId : Nat) (now : Nat)
    (raw : Bool) (connection : Option Conn) (tok : Nat) : CallbackStore :=
  registerHandler s requestId now raw connection false tok

/-- Embedding of `Base.prototype._callHandler(id, document, err)`: when at
least one listener is registered for the id, the `_notReplied` record and
every listener for the id are removed and the first listener is invoked
(returned as the second component); otherwise nothing happens. -/
def callHandler (s : CallbackStore) (id : Nat) : CallbackStore × Option Nat :=
  if (listenersOf s id).length ≥ 1 then
    ({ events := eraseA s.events id, notReplied := eraseA s.notReplied id },
      (listenersOf s id).head?)
  else (s, none)

/-- Embedding of `Base.prototype._reRegisterHandler(newId, object,
callback)`: the previous listener and metadata record are installed under
the new request id. -/
def reRegisterHandler (s : CallbackStore) (newId : Nat) (tok : Nat)
    (info : HandlerInfo) : CallbackStore :=
  { events := pushTokA s.events newId tok
  , notReplied := setA s.notReplied newId info }

/-- Embedding of `Base.prototype._findHandler(id)`: the stored metadata and
the first listener, when one exists. -/
def findHandler (s : CallbackStore) (id : Nat) : Option HandlerInfo × Option Nat :=
  (findA s.notReplied id, (listenersOf s id).head?)

theorem keysA_cons {α : Type} (kv : Nat × α) (rest : List (Nat × α)) :
    keysA (kv :: rest) = kv.1 :: keysA rest := rfl

theorem pushTokA_cons (kv : Nat × List Nat) (rest : List (Nat × List Nat)) (k t : Nat) :
    pushTokA (kv :: rest) k t =
      if kv.1 = k then (k, kv.2 ++ [t]) :: rest else kv :: pushTokA rest k t := rfl

/-- All handler tokens installed in a listener table. -/
def allToks : List (Nat × List Nat) → List Nat
  | [] => []
  | kv :: rest => kv.2 ++ allToks rest

@[simp] theorem allToks_nil : allToks [] = [] := rfl

theorem allToks_cons (kv : Nat × List Nat) (rest : List (Nat × List Nat)) :
    allToks (kv :: rest) = kv.2 ++ allToks rest := rfl

theorem count_allToks_pushTokA (m : List (Nat × List Nat)) (k t x : Nat) :
    (allToks (pushTokA m k t)).count x = (allToks m).count x + List.count x [t] := by
  induction m with
  | nil => simp [pushTokA, allToks]
  | cons kv rest ih =>
    by_cases h : kv.1 = k
    · rw [pushTokA_cons, if_pos h]
      simp only [allToks_cons, List.count_append]
      omega
    · rw [pushTokA_cons, if_neg h]
      simp only [allToks_cons, List.count_append, ih]
      omega

theorem count_allToks_eraseA (m : List (Nat × List Nat)) (k : Nat) (l : List Nat)
    (hn : (keysA m).Nodup) (hf : findA m k = some l) (x : Nat) :
    (allToks m).count x = (allToks (eraseA m k)).count x + l.count x := by
  induction m with
  | nil => simp [findA] at hf
  | cons kv rest ih =>
    rw [findA_cons] at hf
    rw [keysA_cons] at hn
    rcases List.nodup_cons.mp hn with ⟨hmem, hrest⟩
    by_cases h : kv.1 = k
    · rw [if_pos h] at hf
      injection hf with hf
      have hk : k ∉ keysA rest := h ▸ hmem
      rw [eraseA_cons, if_pos h, eraseA_of_not_mem rest k hk]
      simp only [allToks_cons, List.count_append, hf]
      omega
    · rw [if_neg h] at hf
      rw [eraseA_cons, if_neg h]
      simp only [allToks_cons, List.count_append, ih hrest hf]
      omega

theorem mem_keysA_pushTokA (m : List (Nat × List Nat)) (k t x : Nat)
    (h : x ∈ keysA (pushTokA m k t)) : x ∈ keysA m ∨ x = k := by
  induction m with
  | nil =>
    right
    simpa [pushTokA, keysA] using h
  | cons kv rest ih =>
    by_cases hk : kv.1 = k
    · rw [pushTokA_cons, if_pos hk, keysA_cons] at h
      rw [keysA_cons]
      rcases List.mem_cons.mp h with h1 | h2
      · left; exact List.mem_cons.mpr (Or.inl (h1.trans hk.symm))
      · left; exact List.mem_cons.mpr (Or.inr h2)
    · rw [pushTokA_cons, if_neg hk, keysA_cons] at h
      rw [keysA_cons]
      rcases List.mem_cons.mp h with h1 | h2
      · left; exact List.mem_cons.mpr (Or.inl h1)
      · rcases ih h2 with h3 | h3
        · left; exact List.mem_cons.mpr (Or.inr h3)
        · right; exact h3

theorem keysA_nodup_pushTokA (m : List (Nat × List Nat)) (k t : Nat)
    (hn : (keysA m).Nodup) : (keysA (pushTokA m k t)).Nodup := by
  induction m with
  | nil => simp [pushTokA, keysA]
  | cons kv rest ih =>
    rw [keysA_cons] at hn
    rcases List.nodup_cons.mp hn with ⟨hmem, hrest⟩
    by_cases hk : kv.1 = k
    · rw [pushTokA_cons, if_pos hk, keysA_cons]
      exact List.nodup_cons.mpr ⟨hk ▸ hmem, hrest⟩
    · rw [pushTokA_cons, if_neg hk, keysA_cons]
      refine List.nodup_cons.mpr ⟨?_, ih hrest⟩
      intro hx
      rcases mem_keysA_pushTokA rest k t kv.1 hx with h1 | h1
      · exact hmem h1
      · exact hk h1

/-- One operation on the pending-request registry: a registration of a
handler token or a completion (reply delivery) for a request id. -/
inductive RegOp where
  | reg (requestId : Nat) (now : Nat) (raw : Bool) (connection : Option Conn)
      (exhaust : Bool) (tok : Nat)
  | comp (requestId : Nat)
deriving Repr, DecidableEq

/-- Handler tokens supplied by the registrations in a sequence of ops. -/
def regToks : List RegOp → List Nat
  | [] => []
  | RegOp.reg _ _ _ _ _ t :: rest => t :: regToks rest
  | RegOp.comp _ :: rest => regToks rest

/-- Single step: a registration stores its handler via `_registerHandler`; a
completion runs `_callHandler`, yielding the invoked handler token when
there is one. -/
def stepOp (s : CallbackStore) : RegOp → CallbackStore × List Nat
  | RegOp.reg id now raw conn ex t => (registerHandler s id now raw conn ex t, [])
  | RegOp.comp id => ((callHandler s id).1, (callHandler s id).2.toList)

/-- Run a sequence of registry operations from a state, collecting every
handler invocation in order. -/
def runOps (s : CallbackStore) : List RegOp → CallbackStore × List Nat
  | [] => (s, [])
  | op :: rest =>
    ((runOps (stepOp s op).1 rest).1, (stepOp s op).2 ++ (runOps (stepOp s op).1 rest).2)

theorem runOps_cons (s : CallbackStore) (op : RegOp) (rest : List RegOp) :
    runOps s (op :: rest) =
      ((runOps (stepOp s op).1 rest).1,
        (stepOp s op).2 ++ (runOps (stepOp s op).1 rest).2) := rfl

theorem listenersOf_eq_cons (s : CallbackStore) (id t : Nat) (l : List Nat)
    (h : listenersOf s id = t :: l) : findA s.events id = some (t :: l) := by
  unfold listenersOf at h
  cases hfa : findA s.events id with
  | none => rw [hfa] at h; simp at h
  | some l0 => rw [hfa] at h; simp at h; rw [h]

theorem callHandler_eq_of_nil (s : CallbackStore) (id : Nat)
    (h : listenersOf s id = []) : callHandler s id = (s, none) := by
  unfold callHandler
  rw [if_neg]
  rw [h]
  simp

theorem callHandler_eq_of_cons (s : CallbackStore) (id t : Nat) (l : List Nat)
    (h : listenersOf s id = t :: l) :
    callHandler s id
      = ({ events := eraseA s.events id, notReplied := eraseA s.notReplied id }, some t) := by
  unfold callHandler
  rw [if_pos (by rw [h]; simp), h]
  rfl

/-- Core counting invariant: running any sequence of registry operations
keeps listener keys duplicate-free and never makes a token appear in the
invocation trace plus the final listener table more often than it appears
in the starting table plus the registrations. -/
theorem runOps_count (ops : List RegOp) : ∀ s : CallbackStore,
    (keysA s.events).Nodup →
    (keysA (runOps s ops).1.events).Nodup ∧
    ∀ x : Nat, ((runOps s ops).2).count x + (allToks (runOps s ops).1.events).count x
      ≤ (allToks s.events).count x + (regToks ops).count x := by
  induction ops with
  | nil => intro s hn; exact ⟨hn, fun x => by simp [runOps]⟩
  | cons op rest ih =>
    intro s hn
    cases op with
    | reg id now raw conn ex t =>
      have hn1 : (keysA (registerHandler s id now raw conn ex t).events).Nodup :=
        keysA_nodup_pushTokA _ _ _ hn
      obtain ⟨hfin, hcnt⟩ := ih (registerHandler s id now raw conn ex t) hn1
      refine ⟨hfin, fun x => ?_⟩
      have h1 := hcnt x
      have h2 : (allToks (registerHandler s id now raw conn ex t).events).count x
          = (allToks s.events).count x + List.count x [t] :=
        count_allToks_pushTokA s.events id t x
      show List.count x
            (([] : List Nat) ++ (runOps (registerHandler s id now raw conn ex t) rest).2)
          + List.count x
            (allToks (runOps (registerHandler s id now raw conn ex t) rest).1.events)
        ≤ List.count x (allToks s.events) + List.count x (t :: regToks rest)
      rw [List.nil_append, ← List.singleton_append, List.count_append]
      omega
    | comp id =>
      cases hl : listenersOf s id with
      | nil =>
        have hch := callHandler_eq_of_nil s id hl
        obtain ⟨hfin, hcnt⟩ := ih s hn
        constructor
        · show (keysA (runOps (callHandler s id).1 rest).1.events).Nodup
          rw [hch]
          exact hfin
        · intro x
          have h1 := hcnt x
          show List.count x ((callHandler s id).2.toList ++ (runOps (callHandler s id).1 rest).2)
              + List.count x (allToks (runOps (callHandler s id).1 rest).1.events)
            ≤ List.count x (allToks s.events) + List.count x (regToks rest)
          rw [hch]
          simpa using h1
      | cons t ltl =>
        have hf : findA s.events id = some (t :: ltl) := listenersOf_eq_cons s id t ltl hl
        have hch := callHandler_eq_of_cons s id t ltl hl
        have hn1 : (keysA (eraseA s.events id)).Nodup := keysA_nodup_eraseA _ _ hn
        obtain ⟨hfin, hcnt⟩ :=
          ih { events := eraseA s.events id, notReplied := eraseA s.notReplied id } hn1
        constructor
        · show (keysA (runOps (callHandler s id).1 rest).1.events).Nodup
          rw [hch]
          exact hfin
        · intro x
          have h1 := hcnt x
          have h2 := count_allToks_eraseA s.events id (t :: ltl) hn hf x
          have h4 : List.count x [t] ≤ List.count x (t :: ltl) :=
            List.Sublist.count_le (List.Sublist.cons₂ t (List.nil_sublist ltl)) x
          show List.count x ((callHandler s id).2.toList ++ (runOps (callHandler s id).1 rest).2)
              + List.count x (allToks (runOps (callHandler s id).1 rest).1.events)
            ≤ List.count x (allToks s.events) + List.count x (regToks rest)
          rw [hch]
          simp only [Option.toList_some, List.count_append] at *
          omega

/-- C2 counterexample: at a concrete registry state where request id 5 is
already registered, a second `_registerHandler` call for the same id does
not fail; it silently installs a second listener (the listener list grows
to two entries) and overwrites the stored metadata with the new values,
contradicting the claim that double registration fails as a fatal
programmer error. -/
theorem registerHandler_duplicate_counterexample :
    listenersOf (registerHandler emptyStore 5 100 false none false 10) 5 = [10] ∧
    findA (registerHandler emptyStore 5 100 false none false 10).notReplied 5
      = some { start := 100, raw := false, connection := none, exhaust := false } ∧
    listenersOf
        (registerHandler (registerHandler emptyStore 5 100 false none false 10)
          5 200 true none false 11) 5 = [10, 11] ∧
    findA (registerHandler (registerHandler emptyStore 5 100 false none false 10)
          5 200 true none false 11).notReplied 5
      = some { start := 200, raw := true, connection := none, exhaust := false } := by
  decide

/-- C2 amended: a second `_registerHandler` call for an already-registered
request id does not fail; it appends one more listener for the id and
overwrites the stored metadata with the newly supplied values. -/
theorem registerHandler_duplicate_appends_and_overwrites
    (s : CallbackStore) (id now : Nat) (raw : Bool) (conn : Option Conn)
    (ex : Bool) (tok : Nat) (h : listenersOf s id ≠ []) :
    listenersOf (registerHandler s id now raw conn ex tok) id
        = listenersOf s id ++ [tok] ∧
    findA (registerHandler s id now raw conn ex tok).notReplied id
        = some { start := now, raw := raw, connection := conn, exhaust := ex } := by
  constructor
  · simp [registerHandler, listenersOf]
  · simp [registerHandler]

/-- C2 witness: the amended statement applied at a concrete double
registration. -/
theorem registerHandler_duplicate_appends_and_overwrites_witness :
    listenersOf
        (registerHandler (registerHandler emptyStore 3 7 false none false 1)
          3 8 true none true 2) 3
      = listenersOf (registerHandler emptyStore 3 7 false none false 1) 3 ++ [2] ∧
    findA (registerHandler (registerHandler emptyStore 3 7 false none false 1)
          3 8 true none true 2).notReplied 3
      = some { start := 8, raw := true, connection := none, exhaust := true } :=
  registerHandler_duplicate_appends_and_overwrites
    (registerHandler emptyStore 3 7 false none false 1) 3 8 true none true 2 (by decide)

/-- C3: for all sequences of register and complete calls started from an
empty registry, a handler token is invoked at most once provided the
registrations supply pairwise distinct tokens (the invocation trace has no
duplicates); completing an id with no registered listener is a no-op
returning the state unchanged (it does not throw); and a successful
complete removes both the metadata record and the listener of the id. -/
theorem registry_complete_semantics (ops : List RegOp) (s : CallbackStore)
    (id id2 : Nat) (hops : (regToks ops).Nodup)
    (h1 : listenersOf s id = []) (h2 : listenersOf s id2 ≠ []) :
    ((runOps emptyStore ops).2).Nodup ∧
    callHandler s id = (s, none) ∧
    (findA (callHandler s id2).1.notReplied id2 = none ∧
      listenersOf (callHandler s id2).1 id2 = []) := by
  refine ⟨?_, callHandler_eq_of_nil s id h1, ?_⟩
  · have h := runOps_count ops emptyStore (by simp [emptyStore, keysA])
    rw [List.nodup_iff_count_le_one]
    intro a
    have hc := h.2 a
    have h3 : (allToks emptyStore.events).count a = 0 := by simp [emptyStore]
    have h4 : (regToks ops).count a ≤ 1 := List.nodup_iff_count_le_one.mp hops a
    omega
  · cases hl : listenersOf s id2 with
    | nil => exact absurd hl h2
    | cons t ltl =>
      rw [callHandler_eq_of_cons s id2 t ltl hl]
      exact ⟨findA_eraseA_self _ _, by simp [listenersOf, findA_eraseA_self]⟩

/-- C3 witness: the theorem applied to a concrete run in which id 1 is
registered once and completed twice, a completion of the unregistered id 9,
and a successful completion of id 2. -/
theorem registry_complete_semantics_witness :
    ((runOps emptyStore
        [RegOp.reg 1 0 false none false 5, RegOp.comp 1, RegOp.comp 1]).2).Nodup ∧
    callHandler (registerHandler emptyStore 2 0 false none false 6) 9
      = (registerHandler emptyStore 2 0 false none false 6, none) ∧
    (findA (callHandler (registerHandler emptyStore 2 0 false none false 6) 2).1.notReplied 2
        = none ∧
      listenersOf (callHandler (registerHandler emptyStore 2 0 false none false 6) 2).1 2
        = []) :=
  registry_complete_semantics
    [RegOp.reg 1 0 false none false 5, RegOp.comp 1, RegOp.comp 1]
    (registerHandler emptyStore 2 0 false none false 6) 9 2
    (by decide) (by decide) (by decide)

/-- C7 counterexample: a registry entry registered with the exhaust flag set
is nevertheless removed, metadata and listener both, by a normal complete
(`_callHandler`), contradicting the claim that an exhaust entry survives a
normal complete. -/
theorem callHandler_exhaust_removed_counterexample :
    findA (registerHandler emptyStore 4 0 false none true 9).notReplied 4
      = some { start := 0, raw := false, connection := none, exhaust := true } ∧
    (callHandler (registerHandler emptyStore 4 0 false none true 9) 4).2 = some 9 ∧
    findA (callHandler (registerHandler emptyStore 4 0 false none true 9) 4).1.notReplied 4
      = none ∧
    listenersOf (callHandler (registerHandler emptyStore 4 0 false none true 9) 4).1 4
      = [] := by
  decide

/-- C7 amended: `_callHandler` removes the registry entry regardless of the
stored exhaust flag; keeping an exhaust handler alive is only possible via
`_reRegisterHandler`, which installs the same listener and metadata under a
new request id. -/
theorem callHandler_ignores_exhaust_reRegister_restores
    (s : CallbackStore) (id : Nat) (s2 : CallbackStore) (newId tok : Nat)
    (info : HandlerInfo) (h : listenersOf s id ≠ []) :
    (findA (callHandler s id).1.notReplied id = none ∧
      listenersOf (callHandler s id).1 id = []) ∧
    (listenersOf (reRegisterHandler s2 newId tok info) newId
        = listenersOf s2 newId ++ [tok] ∧
      findA (reRegisterHandler s2 newId tok info).notReplied newId = some info) := by
  constructor
  · cases hl : listenersOf s id with
    | nil => exact absurd hl h
    | cons t ltl =>
      rw [callHandler_eq_of_cons s id t ltl hl]
      exact ⟨findA_eraseA_self _ _, by simp [listenersOf, findA_eraseA_self]⟩
  · constructor
    · simp [reRegisterHandler, listenersOf]
    · simp [reRegisterHandler]

/-- C7 witness: the amended statement applied to a concrete exhaust entry
that is completed and then re-registered under a new id. -/
theorem callHandler_ignores_exhaust_reRegister_restores_witness :
    (findA (callHandler (registerHandler emptyStore 3 1 true none true 8) 3).1.notReplied 3
        = none ∧
      listenersOf (callHandler (registerHandler emptyStore 3 1 true none true 8) 3).1 3
        = []) ∧
    (listenersOf
        (reRegisterHandler emptyStore 12 8
          { start := 1, raw := true, connection := none, exhaust := true }) 12
        = listenersOf emptyStore 12 ++ [8] ∧
      findA (reRegisterHandler emptyStore 12 8
          { start := 1, raw := true, connection := none, exhaust := true }).notReplied 12
        = some { start := 1, raw := true, connection := none, exhaust := true }) :=
  callHandler_ignores_exhaust_reRegister_restores
    (registerHandler emptyStore 3 1 true none true 8) 3 emptyStore 12 8
    { start := 1, raw := true, connection := none, exhaust := true } (by decide)

/-- Endpoint match test performed by
`Base.prototype.__executeAllServerSpecificErrorCallbacks`: the entry has a
stored connection whose socket options carry the given host and port. -/
def connMatches (info : HandlerInfo) (host : String) (port : Nat) : Bool :=
  match info.connection with
  | some c => c.port == port && c.host == host
  | none => false

/-- Removal of one request id from both maps, as done for a matching entry:
the emit fires the once listeners (removing them) and the loop deletes the
`_notReplied` record and the `_events` slot. -/
def eraseEntry (s : CallbackStore) (k : Nat) : CallbackStore :=
  { events := eraseA s.events k, notReplied := eraseA s.notReplied k }

/-- Loop of `__executeAllServerSpecificErrorCallbacks`: walk the snapshot of
`_notReplied` entries; every entry whose stored connection matches the
endpoint has its callback fired with the error and is deleted; all other
entries are left untouched. -/
def flushEndpointList (host : String) (port : Nat) (err : Nat) :
    List (Nat × HandlerInfo) → CallbackStore → CallbackStore × List (Nat × Nat)
  | [], s => (s, [])
  | kv :: rest, s =>
    if connMatches kv.2 host port then
      ((flushEndpointList host port err rest (eraseEntry s kv.1)).1,
        (kv.1, err) :: (flushEndpointList host port err rest (eraseEntry s kv.1)).2)
    else flushEndpointList host port err rest s

/-- Embedding of `__executeAllServerSpecificErrorCallbacks(host, port, err)`:
the updated store together with the request ids completed with the error,
in iteration order. -/
def executeAllServerSpecificErrorCallbacks (s : CallbackStore) (host : String)
    (port : Nat) (err : Nat) : CallbackStore × List (Nat × Nat) :=
  flushEndpointList host port err s.notReplied s

/-- Keys of the entries of a metadata snapshot whose stored connection
matches the endpoint. -/
def matchedKeys (host : String) (port : Nat) (l : List (Nat × HandlerInfo)) : List Nat :=
  (l.filter (fun kv => connMatches kv.2 host port)).map Prod.fst

/-- Erase every key of a list from an association list. -/
def multiEraseA {α : Type} : List (Nat × α) → List Nat → List (Nat × α)
  | [], _ => []
  | kv :: rest, ks => if kv.1 ∈ ks then multiEraseA rest ks else kv :: multiEraseA rest ks

theorem multiEraseA_nil_keys {α : Type} (m : List (Nat × α)) : multiEraseA m [] = m := by
  induction m with
  | nil => rfl
  | cons kv rest ih => simp [multiEraseA, ih]

theorem multiEraseA_eraseA {α : Type} (m : List (Nat × α)) (k : Nat) (ks : List Nat) :
    multiEraseA (eraseA m k) ks = multiEraseA m (k :: ks) := by
  induction m with
  | nil => rfl
  | cons kv rest ih =>
    by_cases h : kv.1 = k
    · rw [eraseA_cons, if_pos h, ih]
      have hmem : kv.1 ∈ k :: ks := by rw [h]; exact List.mem_cons_self _ _
      show _ = if kv.1 ∈ k :: ks then multiEraseA rest (k :: ks) else _
      rw [if_pos hmem]
    · rw [eraseA_cons, if_neg h]
      show (if kv.1 ∈ ks then multiEraseA (eraseA rest k) ks
          else kv :: multiEraseA (eraseA rest k) ks)
        = if kv.1 ∈ k :: ks then multiEraseA rest (k :: ks) else kv :: multiEraseA rest (k :: ks)
      have hiff : (kv.1 ∈ k :: ks) ↔ (kv.1 ∈ ks) := by
        rw [List.mem_cons]
        exact ⟨fun hc => hc.resolve_left h, Or.inr⟩
      by_cases hk : kv.1 ∈ ks
      · rw [if_pos hk, if_pos (hiff.mpr hk), ih]
      · rw [if_neg hk, if_neg (fun hc => hk (hiff.mp hc)), ih]

theorem findA_multiEraseA {α : Type} (m : List (Nat × α)) (ks : List Nat) (k : Nat) :
    findA (multiEraseA m ks) k = if k ∈ ks then none else findA m k := by
  induction m with
  | nil => simp [multiEraseA]
  | cons kv rest ih =>
    by_cases hm : kv.1 ∈ ks
    · show findA (if kv.1 ∈ ks then multiEraseA rest ks else _) k = _
      rw [if_pos hm, ih, findA_cons]
      by_cases hk : kv.1 = k
      · have hks : k ∈ ks := hk ▸ hm
        rw [if_pos hks, if_pos hks]
      · by_cases hks : k ∈ ks
        · rw [if_pos hks, if_pos hks]
        · rw [if_neg hks, if_neg hks, if_neg hk]
    · show findA (if kv.1 ∈ ks then _ else kv :: multiEraseA rest ks) k = _
      rw [if_neg hm, findA_cons]
      by_cases hk : kv.1 = k
      · rw [if_pos hk, if_neg (fun hc => hm (hk ▸ hc)), findA_cons, if_pos hk]
      · rw [if_neg hk, ih, findA_cons, if_neg hk]

theorem flushEndpointList_cons (host : String) (port err : Nat)
    (kv : Nat × HandlerInfo) (rest : List (Nat × HandlerInfo)) (s : CallbackStore) :
    flushEndpointList host port err (kv :: rest) s
      = if connMatches kv.2 host port then
          ((flushEndpointList host port err rest (eraseEntry s kv.1)).1,
            (kv.1, err) :: (flushEndpointList host port err rest (eraseEntry s kv.1)).2)
        else flushEndpointList host port err rest s := rfl

theorem flushEndpointList_spec (host : String) (port : Nat) (err : Nat) :
    ∀ (l : List (Nat × HandlerInfo)) (s : CallbackStore),
      (flushEndpointList host port err l s).1.events
          = multiEraseA s.events (matchedKeys host port l) ∧
      (flushEndpointList host port err l s).1.notReplied
          = multiEraseA s.notReplied (matchedKeys host port l) ∧
      (flushEndpointList host port err l s).2
          = (matchedKeys host port l).map (fun k => (k, err)) := by
  intro l
  induction l with
  | nil =>
    intro s
    have hm : matchedKeys host port ([] : List (Nat × HandlerInfo)) = [] := rfl
    rw [hm]
    exact ⟨(multiEraseA_nil_keys s.events).symm,
      (multiEraseA_nil_keys s.notReplied).symm, rfl⟩
  | cons kv rest ih =>
    intro s
    by_cases h : connMatches kv.2 host port = true
    · have hm : matchedKeys host port (kv :: rest) = kv.1 :: matchedKeys host port rest := by
        rw [matchedKeys, matchedKeys, List.filter_cons, if_pos h, List.map_cons]
      obtain ⟨h1, h2, h3⟩ := ih (eraseEntry s kv.1)
      rw [flushEndpointList_cons, if_pos h, hm]
      refine ⟨?_, ?_, ?_⟩
      · show (flushEndpointList host port err rest (eraseEntry s kv.1)).1.events = _
        rw [h1]
        show multiEraseA (eraseA s.events kv.1) (matchedKeys host port rest) = _
        rw [multiEraseA_eraseA]
      · show (flushEndpointList host port err rest (eraseEntry s kv.1)).1.notReplied = _
        rw [h2]
        show multiEraseA (eraseA s.notReplied kv.1) (matchedKeys host port rest) = _
        rw [multiEraseA_eraseA]
      · show (kv.1, err) :: (flushEndpointList host port err rest (eraseEntry s kv.1)).2 = _
        rw [h3, List.map_cons]
    · have hm : matchedKeys host port (kv :: rest) = matchedKeys host port rest := by
        rw [matchedKeys, matchedKeys, List.filter_cons, if_neg h]
      obtain ⟨h1, h2, h3⟩ := ih s
      rw [flushEndpointList_cons, if_neg h, hm]
      exact ⟨h1, h2, h3⟩

theorem findA_mem {α : Type} (m : List (Nat × α)) (k : Nat) (v : α)
    (h : findA m k = some v) : (k, v) ∈ m := by
  induction m with
  | nil => simp [findA] at h
  | cons kv rest ih =>
    rw [findA_cons] at h
    by_cases hk : kv.1 = k
    · rw [if_pos hk] at h
      injection h with h
      have : (k, v) = kv := by
        cases kv
        simp only at hk h
        rw [hk, h]
      exact List.mem_cons.mpr (Or.inl this)
    · rw [if_neg hk] at h
      exact List.mem_cons.mpr (Or.inr (ih h))

theorem mem_findA_of_nodup {α : Type} (m : List (Nat × α)) (k : Nat) (v : α)
    (hn : (keysA m).Nodup) (h : (k, v) ∈ m) : findA m k = some v := by
  induction m with
  | nil => simp at h
  | cons kv rest ih =>
    rw [keysA_cons] at hn
    rcases List.nodup_cons.mp hn with ⟨hmem, hrest⟩
    rcases List.mem_cons.mp h with h1 | h1
    · rw [← h1, findA_cons]
      simp
    · have hk : kv.1 ≠ k := by
        intro hc
        apply hmem
        rw [hc]
        exact List.mem_map_of_mem Prod.fst h1
      rw [findA_cons, if_neg hk]
      exact ih hrest h1

theorem mem_matchedKeys (host : String) (port : Nat) (l : List (Nat × HandlerInfo))
    (k : Nat) : k ∈ matchedKeys host port l ↔
      ∃ v, (k, v) ∈ l ∧ connMatches v host port = true := by
  rw [matchedKeys]
  constructor
  · intro h
    rcases List.mem_map.mp h with ⟨⟨a, b⟩, hkv, hfst⟩
    rcases List.mem_filter.mp hkv with ⟨hmem, hmatch⟩
    have ha : a = k := hfst
    rw [ha] at hmem
    exact ⟨b, hmem, hmatch⟩
  · rintro ⟨v, hmem, hmatch⟩
    exact List.mem_map.mpr ⟨(k, v), List.mem_filter.mpr ⟨hmem, hmatch⟩, rfl⟩

/-- C8: the endpoint-scoped flush completes, with the given error, exactly
the pending entries whose stored connection matches the host and port:
every matching entry is completed and removed from both maps, every other
entry (different endpoint or no stored connection) keeps its metadata and
its listeners unchanged, and everything completed stems from a matching
entry. -/
theorem executeAllServerSpecificErrorCallbacks_exact (s : CallbackStore)
    (host : String) (port : Nat) (err : Nat)
    (hn : (keysA s.notReplied).Nodup) :
    (∀ k info, findA s.notReplied k = some info →
      (connMatches info host port = true →
        (k, err) ∈ (executeAllServerSpecificErrorCallbacks s host port err).2 ∧
        findA (executeAllServerSpecificErrorCallbacks s host port err).1.notReplied k
          = none ∧
        findA (executeAllServerSpecificErrorCallbacks s host port err).1.events k
          = none) ∧
      (connMatches info host port = false →
        (∀ e, (k, e) ∉ (executeAllServerSpecificErrorCallbacks s host port err).2) ∧
        findA (executeAllServerSpecificErrorCallbacks s host port err).1.notReplied k
          = some info ∧
        findA (executeAllServerSpecificErrorCallbacks s host port err).1.events k
          = findA s.events k)) ∧
    (∀ k e, (k, e) ∈ (executeAllServerSpecificErrorCallbacks s host port err).2 →
      e = err ∧ ∃ info, findA s.notReplied k = some info ∧
        connMatches info host port = true) := by
  obtain ⟨he, hr, hf⟩ := flushEndpointList_spec host port err s.notReplied s
  have hrun : executeAllServerSpecificErrorCallbacks s host port err
      = flushEndpointList host port err s.notReplied s := rfl
  constructor
  · intro k info hfind
    constructor
    · intro hmatch
      have hk : k ∈ matchedKeys host port s.notReplied :=
        (mem_matchedKeys host port s.notReplied k).mpr ⟨info, findA_mem _ _ _ hfind, hmatch⟩
      refine ⟨?_, ?_, ?_⟩
      · rw [hrun, hf]
        exact List.mem_map.mpr ⟨k, hk, rfl⟩
      · rw [hrun, hr, findA_multiEraseA, if_pos hk]
      · rw [hrun, he, findA_multiEraseA, if_pos hk]
    · intro hmatch
      have hk : k ∉ matchedKeys host port s.notReplied := by
        intro hc
        rcases (mem_matchedKeys host port s.notReplied k).mp hc with ⟨v, hv, hvm⟩
        have : findA s.notReplied k = some v := mem_findA_of_nodup _ _ _ hn hv
        rw [hfind] at this
        injection this with this
        rw [← this] at hvm
        rw [hmatch] at hvm
        exact Bool.false_ne_true hvm
      refine ⟨?_, ?_, ?_⟩
      · intro e hc
        rw [hrun, hf] at hc
        rcases List.mem_map.mp hc with ⟨k2, hk2, hpair⟩
        injection hpair with hpa hpb
        rw [hpa] at hk2
        exact hk hk2
      · rw [hrun, hr, findA_multiEraseA, if_neg hk, hfind]
      · rw [hrun, he, findA_multiEraseA, if_neg hk]
  · intro k e hmem
    rw [hrun, hf] at hmem
    rcases List.mem_map.mp hmem with ⟨k2, hk2, hpair⟩
    injection hpair with hpa hpb
    rw [hpa] at hk2
    refine ⟨hpb.symm, ?_⟩
    rcases (mem_matchedKeys host port s.notReplied k).mp hk2 with ⟨v, hv, hvm⟩
    exact ⟨v, mem_findA_of_nodup _ _ _ hn hv, hvm⟩

/-- Concrete registry used to witness the endpoint flush: entry 5 is stored
for endpoint (a, 1), entry 6 for endpoint (b, 2), entry 7 without a stored
connection. -/
def endpointStore : CallbackStore :=
  { events := [(5, [50]), (6, [60]), (7, [70])]
  , notReplied :=
      [ (5, { start := 0, raw := false,
              connection := some { host := "a", port := 1 }, exhaust := false })
      , (6, { start := 0, raw := false,
              connection := some { host := "b", port := 2 }, exhaust := false })
      , (7, { start := 0, raw := false, connection := none, exhaust := false })] }

/-- C8 witness: the theorem applied to `endpointStore` and endpoint (a, 1):
entry 5 is completed with the error and removed, entries 6 and 7 keep
their metadata and listeners. -/
theorem executeAllServerSpecificErrorCallbacks_exact_witness :
    (5, 77) ∈ (executeAllServerSpecificErrorCallbacks endpointStore "a" 1 77).2 ∧
    findA (executeAllServerSpecificErrorCallbacks endpointStore "a" 1 77).1.notReplied 5
      = none ∧
    findA (executeAllServerSpecificErrorCallbacks endpointStore "a" 1 77).1.notReplied 6
      = some { start := 0, raw := false,
               connection := some { host := "b", port := 2 }, exhaust := false } ∧
    findA (executeAllServerSpecificErrorCallbacks endpointStore "a" 1 77).1.events 7
      = findA endpointStore.events 7 := by
  have h := executeAllServerSpecificErrorCallbacks_exact endpointStore "a" 1 77 (by decide)
  exact ⟨((h.1 5 _ rfl).1 rfl).1, ((h.1 5 _ rfl).1 rfl).2.1,
    ((h.1 6 _ rfl).2 rfl).2.1, ((h.1 7 _ rfl).2 rfl).2.2⟩

/-- One operation buffered by `NonExecutedOperationStore`: a token
identifying the caller and whether a callback function is attached. -/
structure BufferedOp where
  tok : Nat
  hasCallback : Bool
deriving Repr, DecidableEq

/-- The three command queues of `NonExecutedOperationStore`: `read`,
`write_reads` and `write`. -/
structure CommandsStore where
  read : List BufferedOp
  write_reads : List BufferedOp
  write : List BufferedOp
deriving Repr, DecidableEq

/-- Embedding of `NonExecutedOperationStore.count`. -/
def storeCount (s : CommandsStore) : Nat :=
  s.read.length + s.write_reads.length + s.write.length

/-- Embedding of the local `fireCallbacksWithError`: shift every command out
of a queue and invoke its callback with the error when one is attached;
returns the tokens of the callbacks invoked, in queue order. -/
def fireCallbacksWithError : List BufferedOp → List Nat
  | [] => []
  | op :: rest =>
    (if op.hasCallback then [op.tok] else []) ++ fireCallbacksWithError rest

/-- Embedding of `NonExecutedOperationStore.validateBufferLimit` exactly as
written in the source: the sentinel (-1 or null) returns true; otherwise,
when the count strictly exceeds the limit all three queues are failed and
emptied; and the method then returns false unconditionally, the
`return false` sitting outside the overflow branch. Returns the new queue
state, the reported result and the tokens failed with the capacity
error. -/
def validateBufferLimit (s : CommandsStore) (numberToFailOn : Option Int) :
    CommandsStore × Bool × List Nat :=
  match numberToFailOn with
  | none => (s, true, [])
  | some n =>
    if n = -1 then (s, true, [])
    else if n < (storeCount s : Int) then
      ({ read := [], write_reads := [], write := [] }, false,
        fireCallbacksWithError s.read ++ fireCallbacksWithError s.write_reads
          ++ fireCallbacksWithError s.write)
    else (s, false, [])

/-- C1: evaluation at the failing input.  With a limit of 5 and one
buffered read (count 1, under the limit), `validateBufferLimit` reports
failure and purges nothing, so the caller (`_executeQueryCommand` /
`_executeInsertCommand`) closes the handle although the buffer is within
its cap — the claim requires success whenever the count does not exceed
the limit.  The sentinel case and the overflow purge behave as claimed,
shown at concrete inputs alongside. -/
theorem validateBufferLimit_failing_input :
    validateBufferLimit
        { read := [{ tok := 1, hasCallback := true }], write_reads := [], write := [] }
        (some 5)
      = ({ read := [{ tok := 1, hasCallback := true }], write_reads := [], write := [] },
          false, []) ∧
    storeCount
        { read := [{ tok := 1, hasCallback := true }], write_reads := [], write := [] }
      ≤ 5 ∧
    validateBufferLimit
        { read := [{ tok := 1, hasCallback := true }], write_reads := [], write := [] }
        (some (-1))
      = ({ read := [{ tok := 1, hasCallback := true }], write_reads := [], write := [] },
          true, []) ∧
    validateBufferLimit
        { read := [{ tok := 1, hasCallback := true }]
        , write_reads := [{ tok := 2, hasCallback := true }]
        , write := [{ tok := 3, hasCallback := true }] }
        (some 2)
      = ({ read := [], write_reads := [], write := [] }, false, [1, 2, 3]) := by
  decide

/-- How a buffered command is re-dispatched during a drain. -/
inductive DispatchKind where
  | query
  | insert
deriving Repr, DecidableEq

/-- Record of one re-dispatched command: the connection it was given, the
command's token and the dispatch path taken. -/
structure Dispatch where
  conn : Nat
  tok : Nat
  kind : DispatchKind
deriving Repr, DecidableEq

/-- The while/shift loop shared by the drain methods: pop every command off
the queue and dispatch it with `command.options.connection` set to the
checked-out connection. -/
def drainQueue (c : Nat) (k : DispatchKind) : List BufferedOp → List Dispatch
  | [] => []
  | op :: rest => { conn := c, tok := op.tok, kind := k } :: drainQueue c k rest

/-- Embedding of `NonExecutedOperationStore.execute_queries`: checkout a
reader; if none is available (null or an Error) nothing happens; otherwise
every command of the `read` queue is dispatched on that connection in
queue order via `executeQueryCommand` and the queue is emptied. -/
def execute_queries (s : CommandsStore) (reader : Option Nat) :
    CommandsStore × List Dispatch :=
  match reader with
  | none => (s, [])
  | some c => ({ s with read := [] }, drainQueue c DispatchKind.query s.read)

/-- Embedding of `NonExecutedOperationStore.execute_writes`: checkout a
writer; if none is available nothing happens; otherwise the `write_reads`
queue is dispatched first via `executeQueryCommand`, then the `write`
queue via `executeInsertCommand`, each queue in FIFO order and every
command on that same writer connection. -/
def execute_writes (s : CommandsStore) (writer : Option Nat) :
    CommandsStore × List Dispatch :=
  match writer with
  | none => (s, [])
  | some c =>
    ({ s with write_reads := [], write := [] },
      drainQueue c DispatchKind.query s.write_reads
        ++ drainQueue c DispatchKind.insert s.write)

theorem drainQueue_map (c : Nat) (k : DispatchKind) (l : List BufferedOp) :
    drainQueue c k l = l.map (fun op => { conn := c, tok := op.tok, kind := k }) := by
  induction l with
  | nil => rfl
  | cons op rest ih => rw [drainQueue, List.map_cons, ih]

/-- C6: draining dispatches each queue in exactly its enqueue (FIFO) order;
the write-side drain dispatches all buffered primary-routed reads first
and then all buffered writes, every one of them on the single writer
connection checked out for that drain, emptying both queues; and a drain
without an available connection leaves everything untouched. -/
theorem drain_order_and_connection (s : CommandsStore) (c : Nat) :
    (execute_queries s (some c)).2
        = s.read.map (fun op => { conn := c, tok := op.tok, kind := DispatchKind.query }) ∧
    (execute_queries s (some c)).1.read = [] ∧
    (execute_writes s (some c)).2
        = s.write_reads.map
            (fun op => { conn := c, tok := op.tok, kind := DispatchKind.query })
          ++ s.write.map
            (fun op => { conn := c, tok := op.tok, kind := DispatchKind.insert }) ∧
    (execute_writes s (some c)).1.write_reads = [] ∧
    (execute_writes s (some c)).1.write = [] ∧
    (∀ d, d ∈ (execute_writes s (some c)).2 → d.conn = c) ∧
    execute_queries s none = (s, []) ∧
    execute_writes s none = (s, []) := by
  refine ⟨?_, rfl, ?_, rfl, rfl, ?_, rfl, rfl⟩
  · show drainQueue c DispatchKind.query s.read = _
    rw [drainQueue_map]
  · show drainQueue c DispatchKind.query s.write_reads
        ++ drainQueue c DispatchKind.insert s.write = _
    rw [drainQueue_map, drainQueue_map]
  · intro d hd
    have hd2 : d ∈ drainQueue c DispatchKind.query s.write_reads
        ++ drainQueue c DispatchKind.insert s.write := hd
    rcases List.mem_append.mp hd2 with h | h <;>
      · rw [drainQueue_map] at h
        rcases List.mem_map.mp h with ⟨op, _, hop⟩
        rw [← hop]

/-- C6 witness: the theorem applied to a drain of one buffered
primary-routed read and one buffered write on writer connection 4. -/
theorem drain_order_and_connection_witness :
    (execute_writes
        { read := []
        , write_reads := [{ tok := 1, hasCallback := true }]
        , write := [{ tok := 2, hasCallback := true }] } (some 4)).2
      = [{ conn := 4, tok := 1, kind := DispatchKind.query },
         { conn := 4, tok := 2, kind := DispatchKind.insert }] ∧
    ({ conn := 4, tok := 1, kind := DispatchKind.query } : Dispatch).conn = 4 := by
  have h := drain_order_and_connection
    { read := []
    , write_reads := [{ tok := 1, hasCallback := true }]
    , write := [{ tok := 2, hasCallback := true }] } 4
  refine ⟨by rw [h.2.2.1]; rfl, h.2.2.2.2.2.1 _ (by decide)⟩

/-- A wire command carrying its assigned request id (base_command.js keeps
one process-wide increasing counter from which ids are assigned). -/
structure DbCommand where
  requestId : Nat
deriving Repr, DecidableEq

/-- Creation of a fresh command under the id counter, as performed for
`DbCommand.createGetLastErrorCommand`: the command receives the current
counter value and the counter advances. -/
def mkCommand (gen : Nat) : DbCommand × Nat := ({ requestId := gen }, gen + 1)

/-- A write-concern value: a number, the string majority, or a tag-set
name. -/
inductive WVal where
  | num (n : Int)
  | majority
  | tag (s : String)
deriving Repr, DecidableEq

/-- The write-concern related option fields consulted by
`_getWriteConcern`. -/
structure WriteOptions where
  w : Option WVal
  j : Option Bool
  wtimeout : Option Nat
deriving Repr, DecidableEq

/-- Embedding of `_setWriteConcernHash(options)`: `w` is copied when
present, `j` only when it is exactly true, `wtimeout` when present. -/
def _setWriteConcernHash (options : WriteOptions) : WriteOptions :=
  { w := options.w
  , j := if options.j = some true then some true else none
  , wtimeout := options.wtimeout }

/-- Embedding of `_getWriteConcern(self, options)`: operation-level options
win when they carry `w` or a boolean `j`; otherwise the handle-level
options; otherwise the default is `{w: 1}`. -/
def _getWriteConcern (self : WriteOptions) (options : WriteOptions) : WriteOptions :=
  if options.w ≠ none ∨ options.j ≠ none then _setWriteConcernHash options
  else if self.w ≠ none ∨ self.j ≠ none then _setWriteConcernHash self
  else { w := some (WVal.num 1), j := none, wtimeout := none }

/-- The acknowledgement guard of `__executeInsertCommand`:
`errorOptions.w > 0 || errorOptions.w == 'majority' || errorOptions.j`. -/
def ackRequired (e : WriteOptions) : Bool :=
  (match e.w with
   | some (WVal.num n) => decide (0 < n)
   | _ => false)
  || decide (e.w = some WVal.majority)
  || decide (e.j = some true)

/-- Embedding of the registration decision of `__executeInsertCommand`
(db source): given a callback and a checked-out, protocol-compatible
connection, the resolved write concern decides escalation: when
acknowledgement is required the payload becomes the pair
[write, getLastError], the getLastError command takes a fresh request id
from the counter and exactly one handler is registered under that id (the
four-argument `_registerHandler` call, so exhaust is false); otherwise no
handler is registered. Returns the registry, the counter and the request
id registered, if any. -/
def execInsertCommand (store : CallbackStore) (selfOptions options : WriteOptions)
    (db_command : DbCommand) (gen now : Nat) (raw : Bool)
    (connection : Option Conn) (compatible : Bool) (tok : Nat)
    (hasCallback : Bool) : CallbackStore × Nat × Option Nat :=
  if compatible = false then (store, gen, none)
  else if hasCallback then
    match connection with
    | none => (store, gen, none)
    | some conn =>
      if ackRequired (_getWriteConcern selfOptions options) then
        (registerHandlerNoExhaust store (mkCommand gen).1.requestId now raw
          (some conn) tok, (mkCommand gen).2, some (mkCommand gen).1.requestId)
      else (store, gen, none)
  else (store, gen, none)

theorem setA_append_of_not_found {α : Type} (m : List (Nat × α)) (k : Nat) (v : α)
    (h : findA m k = none) : setA m k v = m ++ [(k, v)] := by
  induction m with
  | nil => rfl
  | cons kv rest ih =>
    rw [findA_cons] at h
    by_cases hk : kv.1 = k
    · rw [if_pos hk] at h
      exact absurd h (by simp)
    · rw [if_neg hk] at h
      show (if kv.1 = k then (k, v) :: rest else kv :: setA rest k v) = _
      rw [if_neg hk, ih h, List.cons_append]

/-- C4: for a dispatched write with a callback on a live, compatible
connection, a registry entry is created iff the resolved write concern
requires acknowledgement (numeric w greater than 0, w majority, or
journaled), and when it is created there is exactly one new entry, keyed
by the synthesized getLastError command's request id (the counter value),
which differs from the original write command's earlier-assigned id. -/
theorem execInsertCommand_registration (store : CallbackStore)
    (selfOptions options : WriteOptions) (cmd : DbCommand) (gen now : Nat)
    (raw : Bool) (c : Conn) (tok : Nat)
    (hgen : cmd.requestId < gen)
    (hfresh : findA store.notReplied gen = none) :
    (ackRequired (_getWriteConcern selfOptions options) = true →
      execInsertCommand store selfOptions options cmd gen now raw (some c) true tok true
        = (registerHandlerNoExhaust store gen now raw (some c) tok, gen + 1, some gen) ∧
      gen ≠ cmd.requestId ∧
      (registerHandlerNoExhaust store gen now raw (some c) tok).notReplied
        = store.notReplied
            ++ [(gen, { start := now, raw := raw, connection := some c,
                        exhaust := false })] ∧
      listenersOf (registerHandlerNoExhaust store gen now raw (some c) tok) gen
        = listenersOf store gen ++ [tok]) ∧
    (ackRequired (_getWriteConcern selfOptions options) = false →
      execInsertCommand store selfOptions options cmd gen now raw (some c) true tok true
        = (store, gen, none)) := by
  constructor
  · intro hack
    refine ⟨?_, by omega, ?_, ?_⟩
    · show (if (true : Bool) = false then _
          else if ackRequired (_getWriteConcern selfOptions options) then _ else _) = _
      rw [if_neg (by simp), if_pos hack]
      rfl
    · show setA store.notReplied gen _ = _
      rw [setA_append_of_not_found store.notReplied gen _ hfresh]
    · show (findA (pushTokA store.events gen tok) gen).getD [] = _
      rw [findA_pushTokA_self]
      rfl
  · intro hack
    show (if (true : Bool) = false then _
        else if ackRequired (_getWriteConcern selfOptions options) then _ else _) = _
    rw [if_neg (by simp), if_neg (by rw [hack]; exact Bool.false_ne_true)]

/-- C4 witness: the theorem applied with an unacknowledged write
(w 0, not journaled, no handle defaults beyond w 0) and with the default
write concern (w 1) at counter value 10, the original write holding the
earlier id 3. -/
theorem execInsertCommand_registration_witness :
    execInsertCommand emptyStore
        { w := some (WVal.num 0), j := none, wtimeout := none }
        { w := none, j := none, wtimeout := none }
        { requestId := 3 } 10 0 false (some { host := "h", port := 1 }) true 7 true
      = (emptyStore, 10, none) ∧
    execInsertCommand emptyStore
        { w := none, j := none, wtimeout := none }
        { w := none, j := none, wtimeout := none }
        { requestId := 3 } 10 0 false (some { host := "h", port := 1 }) true 7 true
      = (registerHandlerNoExhaust emptyStore 10 0 false
          (some { host := "h", port := 1 }) 7, 11, some 10) :=
  ⟨(execInsertCommand_registration emptyStore
      { w := some (WVal.num 0), j := none, wtimeout := none }
      { w := none, j := none, wtimeout := none }
      { requestId := 3 } 10 0 false { host := "h", port := 1 } 7
      (by decide) (by decide)).2 (by decide),
   ((execInsertCommand_registration emptyStore
      { w := none, j := none, wtimeout := none }
      { w := none, j := none, wtimeout := none }
      { requestId := 3 } 10 0 false { host := "h", port := 1 } 7
      (by decide) (by decide)).1 (by decide)).1⟩

/-- String-keyed association lookup (per-event listener tables). -/
def lookupS {α : Type} : List (String × α) → String → Option α
  | [], _ => none
  | kv :: rest, k => if kv.1 = k then some kv.2 else lookupS rest k

/-- A logical database handle as seen by `DbStore.emit`: its name, its
creation tag and its per-event listener counts. -/
structure DbHandle where
  databaseName : Option String
  tag : Nat
  listenerCounts : List (String × Nat)
deriving Repr, DecidableEq

/-- Number of listeners a handle has for an event
(`_dbs[i].listeners(event).length`). -/
def listenerCount (h : DbHandle) (event : String) : Nat :=
  (lookupS h.listenerCounts event).getD 0

/-- The filter guard of the delivery loop:
`filterDb == null || filterDb.databaseName !== db.databaseName ||
filterDb.tag !== db.tag`. -/
def notFiltered (filterDb : Option DbHandle) (db : DbHandle) : Bool :=
  match filterDb with
  | none => true
  | some f => decide (f.databaseName ≠ db.databaseName) || decide (f.tag ≠ db.tag)

/-- The delivery loop of `DbStore.emit`: every tracked handle with at least
one listener for the event, and not excluded by the filter, receives the
event; returns the tags of the handles delivered to, in store order. -/
def deliverLoop (event : String) (filterDb : Option DbHandle) :
    List DbHandle → List Nat
  | [] => []
  | db :: rest =>
    if listenerCount db event > 0 && notFiltered filterDb db then
      db.tag :: deliverLoop event filterDb rest
    else deliverLoop event filterDb rest

/-- Embedding of `DbStore.emit(event, message, object, reset, filterDb,
rethrow_if_no_listeners)` exactly as written in the source: the
`!emitted && rethrow_if_no_listeners` check sits BEFORE the delivery loop
while `emitted` is still at its initial false, so whenever the rethrow
flag is set the method returns immediately after scheduling a
process-level rethrow of the message and no handle receives the event;
only with the flag unset does the loop run, and the trailing
error-redelivery block (which also requires the flag) can then never
fire.  Returns the delivered handle tags and whether the error was
escalated process-wide. -/
def dbStoreEmit (dbs : List DbHandle) (event : String) (hasMessage : Bool)
    (objectHasDb : Bool) (filterDb : Option DbHandle)
    (rethrow_if_no_listeners : Bool) : List Nat × Bool :=
  if rethrow_if_no_listeners then ([], true)
  else
    let delivered := deliverLoop event filterDb dbs
    let emitted := !delivered.isEmpty
    if hasMessage && (event == "error") && !emitted && rethrow_if_no_listeners
        && objectHasDb then
      (delivered, true)
    else (delivered, false)

/-- C5: evaluation at the failing input.  One tracked handle has a listener
for the error event and `rethrowIfUnobserved` is set: the source
escalates the error process-wide and delivers it to no handle, because
the unobserved check runs before the delivery loop ever executes; the
claim requires delivery to every listening handle and escalation only
when no handle observed the event.  With the flag unset the same call
does deliver to the handle, showing the loop itself works and the early
escalation is the deviation. -/
theorem dbStoreEmit_escalates_despite_listener :
    listenerCount
        { databaseName := some "db1", tag := 1, listenerCounts := [("error", 1)] }
        "error" = 1 ∧
    dbStoreEmit
        [{ databaseName := some "db1", tag := 1, listenerCounts := [("error", 1)] }]
        "error" true true none true
      = ([], true) ∧
    dbStoreEmit
        [{ databaseName := some "db1", tag := 1, listenerCounts := [("error", 1)] }]
        "error" true true none false
      = ([1], false) := by
  refine ⟨rfl, rfl, rfl⟩

/-- JavaScript value landing in the `serverConfig` slot of the `Db`
constructor: the repository calls `new Db(dbName, serverConfig, options)`
against the two-parameter constructor, so sometimes a name string arrives
there instead of a server-config reference. -/
inductive JsVal where
  | str (s : String)
  | cfgRef (id : Nat)
deriving Repr, DecidableEq

/-- The fields of a `Db` instance relevant to the handle cache.  The
constructor `function Db(serverConfig, options)` stores its first argument
as `serverConfig`; no statement in its body ever assigns
`this.databaseName`, so the field is absent on every instance it
builds. -/
structure DbRec where
  serverConfig : JsVal
  databaseName : Option String
  tag : Nat
deriving Repr, DecidableEq

/-- Embedding of the `Db` constructor, restricted to the cache-relevant
fields. -/
def mkDb (serverConfig : JsVal) (tag : Nat) : DbRec :=
  { serverConfig := serverConfig, databaseName := none, tag := tag }

/-- Embedding of `DbStore.add(db)`: the handle is appended unless a stored
handle already has an equal `databaseName`. -/
def dbStoreAdd (dbs : List DbRec) (db : DbRec) : List DbRec :=
  if dbs.any (fun d => d.databaseName == db.databaseName) then dbs else dbs ++ [db]

/-- Embedding of `DbStore.fetch(databaseName)`: the first stored handle
whose `databaseName` equals the requested name (a string never equals an
absent field under the loose comparison used). -/
def dbStoreFetch (dbs : List DbRec) (databaseName : String) : Option DbRec :=
  dbs.find? (fun d => d.databaseName == some databaseName)

/-- Embedding of `Db.prototype.db(dbName)`: fetch from the shared store and
reuse the handle when one is found; otherwise construct a new instance via
`new Db(dbName, this.serverConfig, options)`, whose first argument — the
name — lands in the constructor's `serverConfig` parameter.  Returns the
handle and whether a new one was constructed. -/
def dbMethod (storeDbs : List DbRec) (dbName : String) (newTag : Nat) : DbRec × Bool :=
  match dbStoreFetch storeDbs dbName with
  | some db => (db, false)
  | none => (mkDb (JsVal.str dbName) newTag, true)

/-- C9: evaluation at the failing input.  A handle obtained from
`db("foo")` never has `databaseName` set — the constructor signature
dropped the name parameter and the call site passes the name in the
`serverConfig` position — so after storing that handle a second
`db("foo")` misses the cache and constructs another new, malformed handle
instead of returning the cached one.  The last conjunct shows the cache
lookup itself would reuse a handle whose name were actually bound, so the
missing name binding in the constructor is the deviation. -/
theorem db_handle_cache_failing_input :
    (mkDb (JsVal.str "foo") 1).databaseName = none ∧
    dbStoreFetch (dbStoreAdd [] (mkDb (JsVal.str "foo") 1)) "foo" = none ∧
    dbMethod (dbStoreAdd [] (mkDb (JsVal.str "foo") 1)) "foo" 2
      = (mkDb (JsVal.str "foo") 2, true) ∧
    dbMethod [{ serverConfig := JsVal.cfgRef 0, databaseName := some "foo", tag := 1 }]
        "foo" 2
      = ({ serverConfig := JsVal.cfgRef 0, databaseName := some "foo", tag := 1 },
          false) := by
  refine ⟨rfl, rfl, rfl, rfl⟩

/-- Outcome delivered to the `authenticate` callback. -/
inductive AuthOutcome where
  | failure (msg : String)
  | success
deriving Repr, DecidableEq

/-- Embedding of `Db.prototype.authenticate(username, password, options,
callback)`: a falsy `options.authMechanism` (absent, or the empty string)
is replaced by DIGEST; a named mechanism other than BASIC, OAUTH or DIGEST
returns an error callback; every other case reaches the unconditional
`callback(null, true)`.  No command object is ever built and nothing is
handed to the dispatch layer, recorded by the always-empty list of
dispatched commands. -/
def authenticate (username password : String) (authMechanism : Option String) :
    AuthOutcome × List Nat :=
  if authMechanism = none ∨ authMechanism = some "" then (AuthOutcome.success, [])
  else if authMechanism ≠ some "BASIC" ∧ authMechanism ≠ some "OAUTH"
      ∧ authMechanism ≠ some "DIGEST" then
    (AuthOutcome.failure "only BASIC, OAUTH or DIGEST is supported by authMechanism", [])
  else (AuthOutcome.success, [])

/-- C10: for every username, password and options: when `authMechanism` is
absent or one of BASIC, OAUTH, DIGEST, `authenticate` invokes its callback
with (null, true); a named unsupported mechanism (other than the falsy
empty string) yields an error callback instead; and in every case no
command is dispatched and no network I/O is performed. -/
theorem authenticate_no_dispatch (username password : String)
    (mech : Option String) :
    ((mech = none ∨ mech = some "BASIC" ∨ mech = some "OAUTH" ∨ mech = some "DIGEST") →
      authenticate username password mech = (AuthOutcome.success, [])) ∧
    (∀ m : String, mech = some m → m ≠ "" → m ≠ "BASIC" → m ≠ "OAUTH" → m ≠ "DIGEST" →
      authenticate username password mech
        = (AuthOutcome.failure
            "only BASIC, OAUTH or DIGEST is supported by authMechanism", [])) ∧
    (authenticate username password mech).2 = [] := by
  refine ⟨?_, ?_, ?_⟩
  · rintro (h | h | h | h) <;> subst h <;> simp [authenticate]
  · intro m hm h0 h1 h2 h3
    subst hm
    unfold authenticate
    rw [if_neg, if_pos]
    · refine ⟨?_, ?_, ?_⟩ <;> intro hc <;> injection hc with hc
      · exact h1 hc
      · exact h2 hc
      · exact h3 hc
    · rintro (hc | hc)
      · exact Option.noConfusion hc
      · injection hc with hc
        exact h0 hc
  · unfold authenticate
    by_cases hc : mech = none ∨ mech = some ""
    · rw [if_pos hc]
    · rw [if_neg hc]
      by_cases hc2 : mech ≠ some "BASIC" ∧ mech ≠ some "OAUTH" ∧ mech ≠ some "DIGEST"
      · rw [if_pos hc2]
      · rw [if_neg hc2]

/-- C10 witness: the theorem applied with the mechanism DIGEST (success, no
dispatch) and with the unsupported mechanism LDAP (error callback, no
dispatch). -/
theorem authenticate_no_dispatch_witness :
    authenticate "user" "pw" (some "DIGEST") = (AuthOutcome.success, []) ∧
    authenticate "user" "pw" (some "LDAP")
      = (AuthOutcome.failure
          "only BASIC, OAUTH or DIGEST is supported by authMechanism", []) ∧
    (authenticate "user" "pw" none).2 = [] :=
  ⟨(authenticate_no_dispatch "user" "pw" (some "DIGEST")).1
      (Or.inr (Or.inr (Or.inr rfl))),
   (authenticate_no_dispatch "user" "pw" (some "LDAP")).2.1 "LDAP" rfl
      (by decide) (by decide) (by decide) (by decide),
   (authenticate_no_dispatch "user" "pw" none).2.2⟩

end LibRets
